import Mathlib

/-!
Shallow embedding of the maximum-activation top-N tracking core of `intent/maxact.py`.

The algorithm keeps, per monitored output and per hidden unit, the `topn` largest
activations seen so far in a streaming fashion (`quantities`, shape (topn, units)),
together with the coordinate that produced each of them (`indices`, shape
(topn, units) for dense 2d outputs and (topn, units, 3) for spatial 4d outputs).
One batch is folded in by concatenating the old record with the batch's candidates
along the slot axis, descending-argsorting each unit column, truncating to `topn`
and gathering quantities and indices through the same permutation
(`_create_maximum_activation_update`, maxact.py lines 93-127).

Modelling conventions:
* activations are floating-point numbers that the algorithm only ever compares
  (sort, max, argmax) and never combines arithmetically, so they are modelled as `ℚ`;
* every per-unit column of the (topn, units) buffers evolves independently (the sort
  is along axis 0), so the buffers are represented transposed, as one `ColState`
  per unit; `(cols.getD u _).qs.getD i 0` is the source's `quantities[i, u]`;
* the source calls `argsort` with its default sort kind, which guarantees no
  stability, so the behaviour on exact ties is an implementation detail of the
  underlying numeric library.  The concrete model `argsortDesc` fixes the stable
  descending sort (ties keep the lower original position first); every theorem
  below about the concrete update holds under any descending sort permutation,
  and the tie-sensitive idempotence statements are instead proved against the
  contract `DescPerm`, which admits every descending ranking of the merged
  column regardless of tie order.
-/

/-- Ranking relation of position `i` before position `j` in the descending argsort of
the key list `xs` (the model of `(-cmax).argsort(axis=0)`, maxact.py line 119):
strictly larger value first, exact ties broken by original position. -/
def rkey (xs : List ℚ) (i j : ℕ) : Prop :=
  xs.getD j 0 < xs.getD i 0 ∨ (xs.getD i 0 = xs.getD j 0 ∧ i ≤ j)

instance rkeyDecidable (xs : List ℚ) : DecidableRel (rkey xs) := fun i j => by
  unfold rkey; infer_instance

instance rkeyTotal (xs : List ℚ) : IsTotal ℕ (rkey xs) := ⟨fun i j => by
  rcases lt_trichotomy (xs.getD i 0) (xs.getD j 0) with h | h | h
  · exact Or.inr (Or.inl h)
  · rcases Nat.le_total i j with hij | hij
    · exact Or.inl (Or.inr ⟨h, hij⟩)
    · exact Or.inr (Or.inr ⟨h.symm, hij⟩)
  · exact Or.inl (Or.inl h)⟩

instance rkeyTrans (xs : List ℚ) : IsTrans ℕ (rkey xs) := ⟨fun i j k hij hjk => by
  rcases hij with h1 | ⟨e1, l1⟩ <;> rcases hjk with h2 | ⟨e2, l2⟩
  · exact Or.inl (h2.trans h1)
  · exact Or.inl (e2 ▸ h1)
  · exact Or.inl (h2.trans_eq e1.symm)
  · exact Or.inr ⟨e1.trans e2, l1.trans l2⟩⟩

/-- Descending argsort of one column `xs`: the positions `0 .. xs.length - 1`
reordered so that the corresponding values are non-increasing. -/
def argsortDesc (xs : List ℚ) : List ℕ :=
  List.insertionSort (rkey xs) (List.range xs.length)

/-- One unit's slice of a Statistics Record: `qs` is the column `quantities[:, u]`
(slot 0 first) and `ids` the column of recorded coordinates `indices[:, u]`.  The
source stores the buffers with shape (topn, units); they are represented here
transposed, one `ColState` per unit, which is faithful because the update acts on
each unit column independently. -/
structure ColState (ι : Type) where
  qs : List ℚ
  ids : List ι
deriving DecidableEq, Repr

/-- One unit column of the merge-rank-truncate-gather step of
`_create_maximum_activation_update` (maxact.py lines 117-121): concatenate the old
record with the batch candidates, descending-argsort, keep the first `topn`
positions, and gather both quantities and indices through that same permutation. -/
def updateCol {ι : Type} [Inhabited ι] (topn : ℕ) (st : ColState ι)
    (cand : List ℚ) (candIds : List ι) : ColState ι :=
  let cmax := st.qs ++ cand
  let cind := st.ids ++ candIds
  let cargsort := (argsortDesc cmax).take topn
  ⟨cargsort.map fun k => cmax.getD k 0, cargsort.map fun k => cind.getD k default⟩

/-- Column `u` of a 2d (cases, units) batch: `output[:, u]`. -/
def colOf (output : List (List ℚ)) (u : ℕ) : List ℚ :=
  output.map fun row => row.getD u 0

/-- Absolute stream positions of the examples of a batch of size `b` starting at
stream position `s` (`tensor.arange(output.shape[0]) + streamindex`, maxact.py
lines 98-99); the counters are tiled identically across units. -/
def counters (b s : ℕ) : List ℕ :=
  (List.range b).map (· + s)

/-- Statistics Record of one dense Monitored Output (all unit columns) together with
the controller's stream position. -/
structure DenseState where
  streampos : ℕ
  cols : List (ColState ℕ)
deriving DecidableEq, Repr

/-- Dense branch of `_create_maximum_activation_update` (maxact.py lines 100-104:
the candidates are the activations themselves and their coordinates the counters)
followed by the stream-position advance by the batch size (lines 153-154). -/
def denseStep (topn : ℕ) (st : DenseState) (output : List (List ℚ)) : DenseState where
  streampos := st.streampos + output.length
  cols := (List.range st.cols.length).map fun u =>
    updateCol topn (st.cols.getD u ⟨[], []⟩) (colOf output u)
      (counters output.length st.streampos)

/-- Zero-initialized dense record (maxact.py lines 78 and 84) with stream position 0
(line 142). -/
def denseInit (topn units : ℕ) : DenseState :=
  ⟨0, List.replicate units ⟨List.replicate topn 0, List.replicate topn 0⟩⟩

/-- Streaming run: fold the per-batch update over a list of batches. -/
def runDense (topn units : ℕ) (batches : List (List (List ℚ))) : DenseState :=
  batches.foldl (denseStep topn) (denseInit topn units)

/-- Feature map of example `ex` (a 3d (units, h, w) value) at unit `u`. -/
def fmOf (ex : List (List (List ℚ))) (u : ℕ) : List (List ℚ) :=
  ex.getD u []

/-- Maximum of a list of activations (numpy max over a flattened axis); 0 on the
empty list, which never arises in the source (numpy raises on an empty argmax). -/
def maxVal : List ℚ → ℚ
  | [] => 0
  | x :: t => t.foldl max x

/-- Position of the first occurrence of the maximum (numpy argmax returns the first
maximal position); 0 on the empty list. -/
def argmaxFirst : List ℚ → ℕ
  | [] => 0
  | [_] => 0
  | x :: y :: t => if x < maxVal (y :: t) then argmaxFirst (y :: t) + 1 else 0

/-- Spatial candidate quantity for one (example, unit) pair (maxact.py lines
105-111): flatten the (h, w) feature map, argmax over the flattened spatial extent
(`fargmax`), and dereference it back into the flattened map (`tmax`, via
`_apply_index`). -/
def spatQ (ex : List (List (List ℚ))) (u : ℕ) : ℚ :=
  (fmOf ex u).flatten.getD (argmaxFirst (fmOf ex u).flatten) 0

/-- Decomposition of the flat argmax by `divmod(fargmax, dims[2])` (maxact.py line
113), `dims[2]` being the map width `w`: the (row, col) of the spatial maximum. -/
def spatLoc (w : ℕ) (ex : List (List (List ℚ))) (u : ℕ) : ℕ × ℕ :=
  (argmaxFirst (fmOf ex u).flatten / w, argmaxFirst (fmOf ex u).flatten % w)

/-- Statistics Record of one spatial Monitored Output: coordinates are triples
(absolute example position, row, col), the source's (topn, units, 3) index buffer. -/
structure SpatState where
  streampos : ℕ
  cols : List (ColState (ℕ × ℕ × ℕ))
deriving DecidableEq, Repr

/-- Spatial branch of `_create_maximum_activation_update` (maxact.py lines 105-121):
candidates are the per-example spatial maxima, coordinates the stacked
(counter, row, col) triples (line 116), merged and truncated exactly as in the dense
case.  `w` is the map width `dims[2]` fixed at record creation. -/
def spatialStep (topn w : ℕ) (st : SpatState) (output : List (List (List (List ℚ)))) :
    SpatState where
  streampos := st.streampos + output.length
  cols := (List.range st.cols.length).map fun u =>
    updateCol topn (st.cols.getD u ⟨[], []⟩)
      (output.map fun ex => spatQ ex u)
      ((List.range output.length).map fun i =>
        (i + st.streampos, spatLoc w (output.getD i []) u))

/-- Zero-initialized spatial record (maxact.py lines 81-82 and 84). -/
def spatInit (topn units : ℕ) : SpatState :=
  ⟨0, List.replicate units ⟨List.replicate topn 0, List.replicate topn (0, 0, 0)⟩⟩

/-- Streaming spatial run over a list of 4d batches. -/
def runSpat (topn units w : ℕ) (batches : List (List (List (List (List ℚ))))) :
    SpatState :=
  batches.foldl (spatialStep topn w) (spatInit topn units)

/-- Cumulative number of examples in a list of batches (each batch is a list of
examples). -/
def totalExamples {α : Type} (batches : List (List α)) : ℕ :=
  (batches.map List.length).sum

/-- Re-fetch, from the dense stream `hist` of all example rows seen so far, the
activation of the example at absolute stream position `c` at unit `u`. -/
def fetchD (hist : List (List ℚ)) (u c : ℕ) : ℚ :=
  (hist.getD c []).getD u 0

/-- Re-fetch, from the spatial stream `hist` of all examples seen so far, the
activation at coordinate triple `c` = (example, row, col) of unit `u`'s map. -/
def fetchS (hist : List (List (List (List ℚ)))) (u : ℕ) (c : ℕ × ℕ × ℕ) : ℚ :=
  ((fmOf (hist.getD c.1 []) u).getD c.2.1 []).getD c.2.2 0

/-- Declared dimensions of a Monitored Output at controller construction: a bare
unit count for dense outputs, a (units, h, w) tuple for spatial ones
(`_create_maximum_activation_for`, maxact.py lines 76-82).  Dimensions are modelled
as integers because the construction-time buffer allocation, not the type, is what
rejects bad sizes. -/
inductive OutputDims where
  | dense (units : ℤ)
  | spatial (units h w : ℤ)
deriving DecidableEq, Repr

/-- `numpy.zeros(shape)`: succeeds (returning the realized shape, contents all zero)
iff no dimension is negative, otherwise raises "negative dimensions are not
allowed".  A zero-sized dimension is accepted and yields an empty buffer. -/
def npZeros (shape : List ℤ) : Except String (List ℕ) :=
  if shape.all (fun d => 0 ≤ d) then Except.ok (shape.map Int.toNat)
  else Except.error "negative dimensions are not allowed"

/-- Shapes of the buffers allocated for one Statistics Record (index buffer,
quantity buffer, optional snapshot buffer). -/
structure StatRecord where
  indexShape : List ℕ
  quantityShape : List ℕ
  snapshotShape : Option (List ℕ)
deriving DecidableEq, Repr

/-- `_create_maximum_activation_for` (maxact.py lines 72-91): allocate the zeroed
index buffer (shape (topn, units) dense, (topn, units, 3) spatial), the snapshot
buffer ((topn, units, h, w), spatial only) and the quantity buffer ((topn, units)),
in source order; any failed allocation aborts construction. -/
def createMaximumActivationFor (topn : ℤ) (dims : OutputDims) :
    Except String StatRecord :=
  match dims with
  | .dense units => do
      let ish ← npZeros [topn, units]
      let qsh ← npZeros [topn, units]
      pure ⟨ish, qsh, none⟩
  | .spatial units h w => do
      let ish ← npZeros [topn, units, 3]
      let ssh ← npZeros [topn, units, h, w]
      let qsh ← npZeros [topn, units]
      pure ⟨ish, qsh, some ssh⟩

/-- Record allocation of `MaximumActivationSearch.__init__` (maxact.py lines
145-147): one Statistics Record per monitored output, in list order; the first
failing allocation aborts the whole construction, so no update bundle is ever
registered for it. -/
def maximumActivationSearchInit (topn : ℤ) :
    List OutputDims → Except String (List StatRecord)
  | [] => Except.ok []
  | d :: rest => do
      let r ← createMaximumActivationFor topn d
      let rs ← maximumActivationSearchInit topn rest
      pure (r :: rs)

/-! Basic facts about the descending argsort. -/

lemma argsortDesc_perm (xs : List ℚ) :
    List.Perm (argsortDesc xs) (List.range xs.length) :=
  List.perm_insertionSort _ _

lemma argsortDesc_length (xs : List ℚ) : (argsortDesc xs).length = xs.length := by
  simpa using (argsortDesc_perm xs).length_eq

lemma argsortDesc_sorted (xs : List ℚ) : (argsortDesc xs).Pairwise (rkey xs) :=
  List.sorted_insertionSort _ _

lemma mem_argsortDesc {xs : List ℚ} {k : ℕ} (h : k ∈ argsortDesc xs) : k < xs.length := by
  simpa using (argsortDesc_perm xs).mem_iff.mp h

lemma getD_map_range {α : Type} (n : ℕ) (f : ℕ → α) (d : α) (u : ℕ) (hu : u < n) :
    ((List.range n).map f).getD u d = f u := by
  rw [List.getD_eq_getElem _ _ (by simpa using hu)]
  simp

lemma map_getD_range {α : Type} (l : List α) (d : α) :
    (List.range l.length).map (fun k => l.getD k d) = l := by
  apply List.ext_getElem
  · simp
  · intro i h1 h2
    simp only [List.getElem_map, List.getElem_range]
    exact List.getD_eq_getElem l d h2

/-! Facts about one column of the merge-rank-truncate-gather update. -/

lemma updateCol_qs_length {ι : Type} [Inhabited ι] (topn : ℕ) (st : ColState ι)
    (cand : List ℚ) (candIds : List ι) :
    (updateCol topn st cand candIds).qs.length
      = min topn (st.qs.length + cand.length) := by
  simp [updateCol, argsortDesc_length]

lemma updateCol_ids_length {ι : Type} [Inhabited ι] (topn : ℕ) (st : ColState ι)
    (cand : List ℚ) (candIds : List ι) :
    (updateCol topn st cand candIds).ids.length
      = min topn (st.qs.length + cand.length) := by
  simp [updateCol, argsortDesc_length]

lemma updateCol_qs_pairwise {ι : Type} [Inhabited ι] (topn : ℕ) (st : ColState ι)
    (cand : List ℚ) (candIds : List ι) :
    (updateCol topn st cand candIds).qs.Pairwise (· ≥ ·) := by
  have hs : ((argsortDesc (st.qs ++ cand)).take topn).Pairwise (rkey (st.qs ++ cand)) :=
    List.Pairwise.sublist (List.take_sublist _ _) (argsortDesc_sorted _)
  exact hs.map _ (fun i j hij => by
    rcases hij with h | ⟨e, _⟩
    · exact h.le
    · exact e.ge)

/-- Every retained slot of the updated column is one of the merged (quantity,
coordinate) candidate pairs: slot `i` holds exactly the pair at some position `k`
of the concatenations `st.qs ++ cand` and `st.ids ++ candIds`. -/
lemma updateCol_slot {ι : Type} [Inhabited ι] (topn : ℕ) (st : ColState ι)
    (cand : List ℚ) (candIds : List ι) (i : ℕ)
    (hi : i < (updateCol topn st cand candIds).qs.length) :
    ∃ k, k < (st.qs ++ cand).length ∧
      (updateCol topn st cand candIds).qs.getD i 0 = (st.qs ++ cand).getD k 0 ∧
      (updateCol topn st cand candIds).ids.getD i default
        = (st.ids ++ candIds).getD k default := by
  have hiL : i < ((argsortDesc (st.qs ++ cand)).take topn).length := by
    simpa [updateCol] using hi
  refine ⟨((argsortDesc (st.qs ++ cand)).take topn)[i], ?_, ?_, ?_⟩
  · exact mem_argsortDesc (List.mem_of_mem_take (List.getElem_mem hiL))
  · show (((argsortDesc (st.qs ++ cand)).take topn).map _).getD i 0 = _
    rw [List.getD_eq_getElem _ _ (by simpa using hiL), List.getElem_map]
  · show (((argsortDesc (st.qs ++ cand)).take topn).map _).getD i default = _
    rw [List.getD_eq_getElem _ _ (by simpa using hiL), List.getElem_map]

lemma updateCol_ids_mem {ι : Type} [Inhabited ι] (topn : ℕ) (st : ColState ι)
    (cand : List ℚ) (candIds : List ι) (x : ι)
    (hx : x ∈ (updateCol topn st cand candIds).ids) :
    x = default ∨ x ∈ st.ids ∨ x ∈ candIds := by
  simp only [updateCol, List.mem_map] at hx
  obtain ⟨k, -, rfl⟩ := hx
  by_cases hk : k < (st.ids ++ candIds).length
  · right
    have : (st.ids ++ candIds).getD k default ∈ st.ids ++ candIds := by
      rw [List.getD_eq_getElem _ _ hk]
      exact List.getElem_mem hk
    simpa using this
  · left
    exact List.getD_eq_default _ _ (Nat.le_of_not_lt hk)

/-- Access to the column of unit `u` after a dense step. -/
lemma denseStep_col (topn : ℕ) (st : DenseState) (output : List (List ℚ)) (u : ℕ)
    (hu : u < st.cols.length) :
    (denseStep topn st output).cols.getD u ⟨[], []⟩
      = updateCol topn (st.cols.getD u ⟨[], []⟩) (colOf output u)
          (counters output.length st.streampos) := by
  simp only [denseStep]
  exact getD_map_range _ _ _ _ hu

/-- Access to the column of unit `u` after a spatial step. -/
lemma spatialStep_col (topn w : ℕ) (st : SpatState)
    (output : List (List (List (List ℚ)))) (u : ℕ) (hu : u < st.cols.length) :
    (spatialStep topn w st output).cols.getD u ⟨[], []⟩
      = updateCol topn (st.cols.getD u ⟨[], []⟩)
          (output.map fun ex => spatQ ex u)
          ((List.range output.length).map fun i =>
            (i + st.streampos, spatLoc w (output.getD i []) u)) := by
  simp only [spatialStep]
  exact getD_map_range _ _ _ _ hu

/-- C2: after any single streaming top-N update — from any prior record state, for
any batch, in both the dense and the spatial variant — every unit's quantities
column is non-increasing from slot 0 to slot N-1. -/
theorem maxact_sortedness_invariant (topn w : ℕ) (st : DenseState) (st' : SpatState)
    (output : List (List ℚ)) (output' : List (List (List (List ℚ)))) :
    (∀ col ∈ (denseStep topn st output).cols, col.qs.Pairwise (· ≥ ·)) ∧
    (∀ col ∈ (spatialStep topn w st' output').cols, col.qs.Pairwise (· ≥ ·)) := by
  constructor
  · intro col hcol
    simp only [denseStep, List.mem_map] at hcol
    obtain ⟨u, -, rfl⟩ := hcol
    exact updateCol_qs_pairwise _ _ _ _
  · intro col hcol
    simp only [spatialStep, List.mem_map] at hcol
    obtain ⟨u, -, rfl⟩ := hcol
    exact updateCol_qs_pairwise _ _ _ _

/-- C2, closed instance. -/
theorem maxact_sortedness_invariant_witness :
    List.Pairwise (· ≥ ·)
      ((denseStep 2 (denseInit 2 1) [[5], [1]]).cols.getD 0 ⟨[], []⟩).qs :=
  (maxact_sortedness_invariant 2 2 (denseInit 2 1) (spatInit 1 1) [[5], [1]] []).1
    _ (by decide)

/-- C3: whatever the batch size `b` (smaller, equal or larger than N), one update
emits buffers with exactly N slots per unit: the per-unit column count is preserved
and every new quantities and indices column has length exactly `topn`, in both the
dense variant (coordinates are bare example positions) and the spatial variant
(coordinates are (example, row, col) triples, the (N, units, 3) layout). -/
theorem maxact_size_conservation (topn w : ℕ) (st : DenseState) (st' : SpatState)
    (output : List (List ℚ)) (output' : List (List (List (List ℚ))))
    (hd : ∀ col ∈ st.cols, col.qs.length = topn)
    (hs : ∀ col ∈ st'.cols, col.qs.length = topn) :
    ((denseStep topn st output).cols.length = st.cols.length ∧
      ∀ col ∈ (denseStep topn st output).cols,
        col.qs.length = topn ∧ col.ids.length = topn) ∧
    ((spatialStep topn w st' output').cols.length = st'.cols.length ∧
      ∀ col ∈ (spatialStep topn w st' output').cols,
        col.qs.length = topn ∧ col.ids.length = topn) := by
  refine ⟨⟨by simp [denseStep], ?_⟩, ⟨by simp [spatialStep], ?_⟩⟩
  · intro col hcol
    simp only [denseStep, List.mem_map, List.mem_range] at hcol
    obtain ⟨u, hu, rfl⟩ := hcol
    have hq : (st.cols.getD u ⟨[], []⟩).qs.length = topn := by
      apply hd
      rw [List.getD_eq_getElem _ _ hu]
      exact List.getElem_mem hu
    rw [updateCol_qs_length, updateCol_ids_length, hq]
    exact ⟨Nat.min_eq_left (Nat.le_add_right _ _), Nat.min_eq_left (Nat.le_add_right _ _)⟩
  · intro col hcol
    simp only [spatialStep, List.mem_map, List.mem_range] at hcol
    obtain ⟨u, hu, rfl⟩ := hcol
    have hq : (st'.cols.getD u ⟨[], []⟩).qs.length = topn := by
      apply hs
      rw [List.getD_eq_getElem _ _ hu]
      exact List.getElem_mem hu
    rw [updateCol_qs_length, updateCol_ids_length, hq]
    exact ⟨Nat.min_eq_left (Nat.le_add_right _ _), Nat.min_eq_left (Nat.le_add_right _ _)⟩

/-- C3, closed instance: batch sizes 1 < N = 2 (dense) and 3 > N = 2 (spatial). -/
theorem maxact_size_conservation_witness :
    ((denseStep 2 (denseInit 2 1) [[7]]).cols.getD 0 ⟨[], []⟩).qs.length = 2 ∧
      ((denseStep 2 (denseInit 2 1) [[7]]).cols.getD 0 ⟨[], []⟩).ids.length = 2 :=
  (maxact_size_conservation 2 1 (denseInit 2 1) (spatInit 2 1) [[7]]
    [[[[1]]], [[[2]]], [[[3]]]] (by decide) (by decide)).1.2 _ (by decide)

/-- C4, Scenario A (dense, N = 2, one unit): from the zeroed record at stream
position 0, batch [[5.0], [1.0]] yields quantities column [5, 1] with coordinates
[0, 1] and stream position 2; the further batch [[3.0]] yields quantities [5, 3]
with coordinates [0, 2], displacing the 1.0 entry. -/
theorem maxact_scenario_a :
    runDense 2 1 [[[5], [1]]]
        = ⟨2, [⟨[5, 1], [0, 1]⟩]⟩ ∧
      runDense 2 1 [[[5], [1]], [[3]]]
        = ⟨3, [⟨[5, 3], [0, 2]⟩]⟩ := by
  constructor <;> rfl

/-- C5, Scenario B (spatial, N = 1, one unit, one example): for the single 2-by-2
feature map [[1, 9], [2, 3]], the spatial reduction records quantity 9 at
coordinate triple (example 0, row 0, col 1), obtained as the flat argmax 1
decomposed by divmod with the map width 2. -/
theorem maxact_scenario_b :
    runSpat 1 1 2 [[[[[1, 9], [2, 3]]]]] = ⟨1, [⟨[9], [(0, 0, 1)]⟩]⟩ := by
  rfl

/-! Facts about the spatial maximum and its first argmax. -/

lemma argmaxFirst_lt_cons : ∀ (t : List ℚ) (x : ℚ),
    argmaxFirst (x :: t) < (x :: t).length
  | [], x => by simp [argmaxFirst]
  | y :: t2, x => by
      by_cases hlt : x < maxVal (y :: t2)
      · simp only [argmaxFirst, if_pos hlt, List.length_cons]
        exact Nat.succ_lt_succ (argmaxFirst_lt_cons t2 y)
      · simp [argmaxFirst, if_neg hlt]

lemma argmaxFirst_lt_length (xs : List ℚ) (h : xs ≠ []) :
    argmaxFirst xs < xs.length := by
  cases xs with
  | nil => exact absurd rfl h
  | cons x t => exact argmaxFirst_lt_cons t x

/-- C9 counterexample: constructing the controller with top-N size 0 is NOT
rejected — the allocation succeeds, producing empty (0, units) buffers and hence a
registered record, contradicting the claim that every N ≤ 0 fails at construction
time. -/
theorem maxact_topn_zero_accepted :
    maximumActivationSearchInit 0 [OutputDims.dense 1]
      = Except.ok [⟨[0, 1], [0, 1], none⟩] := by
  rfl

/-- C9 amended: a NEGATIVE top-N size is rejected at construction time by the very
first buffer allocation (the numpy-style allocator refuses negative dimensions),
so no Statistics Record buffers are produced and no update bundle is registered;
top-N size 0, by contrast, is accepted with empty buffers. -/
theorem maxact_negative_topn_rejected (topn : ℤ) (d : OutputDims)
    (outs : List OutputDims) (h : topn < 0) :
    maximumActivationSearchInit topn (d :: outs)
      = Except.error "negative dimensions are not allowed" := by
  have hnle : ¬ (0 ≤ topn) := not_le.mpr h
  have hz : ∀ (rest : List ℤ),
      npZeros (topn :: rest) = Except.error "negative dimensions are not allowed" := by
    intro rest
    simp [npZeros, hnle]
  have hc : createMaximumActivationFor topn d
      = Except.error "negative dimensions are not allowed" := by
    cases d with
    | dense units =>
        simp only [createMaximumActivationFor, hz]
        rfl
    | spatial units hd wd =>
        simp only [createMaximumActivationFor, hz]
        rfl
  simp only [maximumActivationSearchInit, hc]
  rfl

/-- C9 amended, closed instance at top-N size -1. -/
theorem maxact_negative_topn_rejected_witness :
    (-1 : ℤ) < 0 ∧ maximumActivationSearchInit (-1) [OutputDims.dense 1]
      = Except.error "negative dimensions are not allowed" :=
  ⟨by decide, maxact_negative_topn_rejected (-1) (OutputDims.dense 1) [] (by decide)⟩

/-! Idempotence of the update on an all-zero batch over a positive full record.
The source ranks with `(-cmax).argsort(axis=0)` under argsort's DEFAULT sort kind,
which guarantees no stability, so on exact ties the program is bound only by the
argsort contract: it returns some permutation along which the merged column is
non-increasing, the order of tied positions being unspecified.  `DescPerm` is that
contract and `updateColWith` the merge-rank-truncate-gather step running on a
given admissible ranking; the stable model `argsortDesc` is one instance of the
contract, and the idempotence statements below are proved against the whole
contract, not the stable instance. -/

lemma getD_replicate_self {α : Type} (n m : ℕ) (a : α) :
    (List.replicate n a).getD m a = a := by
  by_cases h : m < n
  · rw [List.getD_eq_getElem _ _ (by simpa using h)]
    exact List.getElem_replicate _ _
  · exact List.getD_eq_default _ _ (by simpa using Nat.le_of_not_lt h)

/-- Contract of the descending ranking `(-cmax).argsort(axis=0)` (maxact.py line
119): an admissible result is any permutation of the positions of `xs` along
which the values of `xs` are non-increasing.  Tie order is unspecified: the
source uses the default, non-stable, sort kind of the numeric library. -/
def DescPerm (xs : List ℚ) (perm : List ℕ) : Prop :=
  List.Perm perm (List.range xs.length) ∧
    (perm.map fun k => xs.getD k 0).Pairwise (· ≥ ·)

instance descPermDecidable (xs : List ℚ) (perm : List ℕ) :
    Decidable (DescPerm xs perm) := by
  unfold DescPerm; infer_instance

/-- One unit column of the merge-rank-truncate-gather step (maxact.py lines
117-121) with the ranking permutation left as a parameter, so that statements can
quantify over every ranking the argsort contract admits. -/
def updateColWith {ι : Type} [Inhabited ι] (topn : ℕ) (st : ColState ι)
    (cand : List ℚ) (candIds : List ι) (perm : List ℕ) : ColState ι :=
  let cmax := st.qs ++ cand
  let cind := st.ids ++ candIds
  let cargsort := perm.take topn
  ⟨cargsort.map fun k => cmax.getD k 0, cargsort.map fun k => cind.getD k default⟩

/-- The file's concrete update is the contract-parameterized update run on the
stable descending argsort. -/
lemma updateCol_eq_updateColWith {ι : Type} [Inhabited ι] (topn : ℕ)
    (st : ColState ι) (cand : List ℚ) (candIds : List ι) :
    updateCol topn st cand candIds
      = updateColWith topn st cand candIds (argsortDesc (st.qs ++ cand)) := rfl

/-- The stable model satisfies the ranking contract. -/
lemma argsortDesc_descPerm (xs : List ℚ) : DescPerm xs (argsortDesc xs) := by
  refine ⟨argsortDesc_perm xs, ?_⟩
  exact (argsortDesc_sorted xs).map _ (fun i j hij => by
    rcases hij with h | ⟨e, _⟩
    · exact h.le
    · exact e.ge)

instance ratGeAntisymm : IsAntisymm ℚ (· ≥ ·) :=
  ⟨fun _ _ h1 h2 => le_antisymm h2 h1⟩

/-- C8 counterexample: over a full record column of two EQUAL positive quantities
[5, 5] with coordinates [4, 2] and an all-zero one-example batch, the ranking
[1, 0, 2] is admissible for the merged column [5, 5, 0] — it is a permutation of
its positions along which the values [5, 5, 0] are non-increasing — yet gathering
through it emits coordinates [2, 4]: the indices buffer is NOT left unchanged by
every behaviour the program's unstable argsort admits; only the quantities are. -/
theorem maxact_idempotent_reranking_counterexample :
    DescPerm ([5, 5] ++ List.replicate 1 0) [1, 0, 2] ∧
      (updateColWith 2 ⟨[5, 5], [4, 2]⟩ (List.replicate 1 0) [7] [1, 0, 2]).qs
        = [5, 5] ∧
      (updateColWith 2 ⟨[5, 5], [4, 2]⟩ (List.replicate 1 0) [7] [1, 0, 2]).ids
        ≠ [4, 2] := by
  decide

/-- C8 amended: over a record unit column already holding N strictly positive
quantities (sorted non-increasingly, the record's standing invariant, with its N
recorded coordinates), an all-zero batch of any size leaves the emitted
quantities column exactly unchanged under EVERY ranking the argsort contract
admits; and the emitted indices column is likewise unchanged provided the N
quantities are strictly decreasing (no exact ties).  With exact ties the
unspecified tie order may permute coordinates among equal-quantity slots, as the
counterexample shows.  Dense and spatial updates both instantiate this column
step (an all-zero batch contributes the all-zero candidate column in either
variant). -/
theorem maxact_idempotent_reranking_any_ranking {ι : Type} [Inhabited ι]
    (topn b : ℕ) (qs : List ℚ) (ids : List ι) (candIds : List ι) (perm : List ℕ)
    (hqlen : qs.length = topn) (hilen : ids.length = topn)
    (hsort : qs.Pairwise (· ≥ ·)) (hpos : ∀ q ∈ qs, 0 < q)
    (hperm : DescPerm (qs ++ List.replicate b 0) perm) :
    (updateColWith topn ⟨qs, ids⟩ (List.replicate b 0) candIds perm).qs = qs ∧
      (qs.Pairwise (· > ·) →
        (updateColWith topn ⟨qs, ids⟩ (List.replicate b 0) candIds perm).ids
          = ids) := by
  have hpermlen : perm.length = topn + b := by
    rw [hperm.1.length_eq, List.length_range, List.length_append, hqlen,
      List.length_replicate]
  have hcmax_sorted : (qs ++ List.replicate b (0:ℚ)).Pairwise (· ≥ ·) := by
    rw [List.pairwise_append]
    refine ⟨hsort, List.pairwise_replicate.mpr (Or.inr le_rfl), ?_⟩
    intro q hq z hz
    rw [List.eq_of_mem_replicate hz]
    exact (hpos q hq).le
  have hmapeq : perm.map (fun k => (qs ++ List.replicate b (0:ℚ)).getD k 0)
      = qs ++ List.replicate b 0 := by
    have hp2 : List.Perm
        (perm.map fun k => (qs ++ List.replicate b (0:ℚ)).getD k 0)
        ((List.range (qs ++ List.replicate b (0:ℚ)).length).map
          fun k => (qs ++ List.replicate b (0:ℚ)).getD k 0) := hperm.1.map _
    rw [map_getD_range] at hp2
    exact List.eq_of_perm_of_sorted hp2 hperm.2 hcmax_sorted
  have hqs : (updateColWith topn ⟨qs, ids⟩ (List.replicate b 0) candIds perm).qs
      = qs := by
    show (perm.take topn).map (fun k => (qs ++ List.replicate b (0:ℚ)).getD k 0) = qs
    rw [List.map_take, hmapeq]
    conv_lhs => rw [← hqlen]
    exact List.take_left qs _
  refine ⟨hqs, ?_⟩
  intro hstrict
  have htake : perm.take topn = List.range topn := by
    apply List.ext_getElem
    · rw [List.length_take, hpermlen, List.length_range]
      exact Nat.min_eq_left (Nat.le_add_right _ _)
    · intro j hj1 hj2
      rw [List.length_range] at hj2
      rw [List.getElem_take, List.getElem_range]
      have hjp : j < perm.length := by omega
      have hv : (qs ++ List.replicate b (0:ℚ)).getD perm[j] 0
          = (qs ++ List.replicate b (0:ℚ)).getD j 0 := by
        have h0 : (perm.map fun k => (qs ++ List.replicate b (0:ℚ)).getD k 0).getD j 0
            = (qs ++ List.replicate b (0:ℚ)).getD j 0 := by
          rw [hmapeq]
        rwa [List.getD_eq_getElem _ _ (by rw [List.length_map]; exact hjp),
          List.getElem_map] at h0
      have hvr : (qs ++ List.replicate b (0:ℚ)).getD j 0 = qs.getD j 0 :=
        List.getD_append _ _ _ _ (by rw [hqlen]; omega)
      have hpj : 0 < qs.getD j 0 := by
        rw [List.getD_eq_getElem _ _ (by rw [hqlen]; omega)]
        exact hpos _ (List.getElem_mem _)
      have hplt : perm[j] < topn := by
        by_contra hge
        have h0 : (qs ++ List.replicate b (0:ℚ)).getD perm[j] 0 = 0 := by
          rw [List.getD_append_right _ _ _ _ (by rw [hqlen]; omega)]
          exact getD_replicate_self _ _ _
        rw [h0, hvr] at hv
        exact (ne_of_gt hpj) hv.symm
      have hqv : qs.getD perm[j] 0 = qs.getD j 0 := by
        rw [← List.getD_append qs (List.replicate b 0) 0 _ (by rw [hqlen]; exact hplt),
          hv, hvr]
      rw [List.getD_eq_getElem _ _ (by rw [hqlen]; exact hplt),
        List.getD_eq_getElem _ _ (by rw [hqlen]; omega)] at hqv
      rcases Nat.lt_trichotomy perm[j] j with hlt | heq | hgt
      · exact absurd hqv (ne_of_gt ((List.pairwise_iff_getElem.mp hstrict)
          perm[j] j (by rw [hqlen]; exact hplt) (by rw [hqlen]; omega) hlt))
      · exact heq
      · exact absurd hqv.symm (ne_of_gt ((List.pairwise_iff_getElem.mp hstrict)
          j perm[j] (by rw [hqlen]; omega) (by rw [hqlen]; exact hplt) hgt))
  show (perm.take topn).map (fun k => (ids ++ candIds).getD k default) = ids
  rw [htake]
  have h1 : ((List.range topn).map fun k => (ids ++ candIds).getD k default)
      = (List.range topn).map fun k => ids.getD k default := by
    apply List.map_congr_left
    intro k hk
    exact List.getD_append _ _ _ _ (by rw [hilen]; exact List.mem_range.mp hk)
  rw [h1]
  conv_lhs => rw [← hilen]
  exact map_getD_range ids default

/-- C8 amended, closed instance: strictly decreasing positive column [5, 3] with
coordinates [4, 2], all-zero batch of one example, and the admissible ranking
[0, 1, 2]: both emitted columns come back unchanged. -/
theorem maxact_idempotent_reranking_any_ranking_witness :
    (updateColWith 2 ⟨[5, 3], [4, 2]⟩ (List.replicate 1 0) [9] [0, 1, 2]).qs
        = [5, 3] ∧
      (updateColWith 2 ⟨[5, 3], [4, 2]⟩ (List.replicate 1 0) [9] [0, 1, 2]).ids
        = [4, 2] := by
  have h := maxact_idempotent_reranking_any_ranking 2 1 [5, 3] [4, 2] [9] [0, 1, 2]
    (by decide) (by decide) (by decide) (by decide) (by decide)
  exact ⟨h.1, h.2 (by decide)⟩

/-! Row-major flattening is inverted by divmod with the row width. -/

lemma flatten_length_const (w : ℕ) : ∀ (fm : List (List ℚ)),
    (∀ row ∈ fm, row.length = w) → fm.flatten.length = fm.length * w
  | [], _ => by simp
  | r :: t, hw => by
      rw [List.flatten_cons, List.length_append, hw r (by simp),
        flatten_length_const w t (fun row hr => hw row (by simp [hr])),
        List.length_cons, Nat.succ_mul]
      omega

lemma flatten_getD (w : ℕ) : ∀ (fm : List (List ℚ)),
    (∀ row ∈ fm, row.length = w) → ∀ a, a < fm.length * w →
    fm.flatten.getD a 0 = (fm.getD (a / w) []).getD (a % w) 0
  | [], _, a, ha => by simp at ha
  | r :: t, hw, a, ha => by
      have hr : r.length = w := hw r (by simp)
      have hwpos : 0 < w := by
        rcases Nat.eq_zero_or_pos w with h0 | h
        · subst h0; simp at ha
        · exact h
      by_cases haw : a < w
      · rw [List.flatten_cons, List.getD_append _ _ _ _ (by rw [hr]; exact haw),
          Nat.div_eq_of_lt haw, Nat.mod_eq_of_lt haw, List.getD_cons_zero]
      · have haw' : w ≤ a := Nat.le_of_not_lt haw
        have ht : a - w < t.length * w := by
          rw [List.length_cons, Nat.succ_mul] at ha
          omega
        rw [List.flatten_cons, List.getD_append_right _ _ _ _ (by rw [hr]; exact haw'), hr,
          flatten_getD w t (fun row hrow => hw row (by simp [hrow])) (a - w) ht]
        have hdiv : a / w = (a - w) / w + 1 := by
          conv_lhs => rw [← Nat.sub_add_cancel haw']
          rw [Nat.add_div_right _ hwpos]
        have hmod : a % w = (a - w) % w := by
          conv_lhs => rw [← Nat.sub_add_cancel haw']
          rw [Nat.add_mod_right]
        rw [hdiv, hmod, List.getD_cons_succ]

/-- Over a feature map whose rows all have width `w`, the (row, col) obtained by
divmod of the flat argmax dereferences, inside the map itself, to the flat
maximum.  This is the geometric identity behind `targmax = divmod(fargmax,
dims[2])` (maxact.py line 113). -/
lemma fm_flat_fetch (w : ℕ) (fm : List (List ℚ)) (hw : ∀ row ∈ fm, row.length = w) :
    (fm.getD (argmaxFirst fm.flatten / w) []).getD (argmaxFirst fm.flatten % w) 0
      = fm.flatten.getD (argmaxFirst fm.flatten) 0 := by
  by_cases hflat : fm.flatten = []
  · rw [hflat]
    show (fm.getD (0 / w) []).getD (0 % w) 0 = List.getD [] 0 0
    rw [Nat.zero_div, Nat.zero_mod, List.getD_nil]
    cases fm with
    | nil => simp
    | cons r t =>
        rw [List.flatten_cons] at hflat
        obtain ⟨hr, -⟩ := List.append_eq_nil.mp hflat
        rw [List.getD_cons_zero, hr, List.getD_nil]
  · have ha : argmaxFirst fm.flatten < fm.flatten.length :=
      argmaxFirst_lt_length _ hflat
    exact (flatten_getD w fm hw _ (by rw [← flatten_length_const w fm hw]; exact ha)).symm

/-- The recorded spatial location of a candidate dereferences, within the example's
own feature map at that unit, to the recorded candidate quantity. -/
lemma spatQ_fetch (w u : ℕ) (ex : List (List (List ℚ)))
    (hw : ∀ fm ∈ ex, ∀ row ∈ fm, row.length = w) :
    ((fmOf ex u).getD (spatLoc w ex u).1 []).getD (spatLoc w ex u).2 0 = spatQ ex u := by
  have hwrow : ∀ row ∈ fmOf ex u, row.length = w := by
    intro row hrow
    by_cases hu : u < ex.length
    · refine hw _ ?_ row hrow
      rw [fmOf, List.getD_eq_getElem _ _ hu]
      exact List.getElem_mem _
    · rw [fmOf, List.getD_eq_default _ _ (Nat.le_of_not_lt hu)] at hrow
      exact absurd hrow (List.not_mem_nil _)
  exact fm_flat_fetch w (fmOf ex u) hwrow

/-! The streaming invariant: stream position counts examples, buffers keep their
shape, and every retained slot is either an unretired zero-initial sentinel or
reproduces its recorded coordinate's activation. -/

/-- Invariant tying a dense record state to the stream `hist` of all example rows
seen so far.  The sentinel disjunct covers slots still holding their
zero-initialized value (quantity 0 at coordinate `default` = 0), the accepted
initial-state artifact of the algorithm. -/
def DenseInv (topn units : ℕ) (hist : List (List ℚ)) (st : DenseState) : Prop :=
  st.streampos = hist.length ∧
  st.cols.length = units ∧
  (∀ col ∈ st.cols, col.qs.length = topn ∧ col.ids.length = topn) ∧
  (∀ u, u < units → ∀ i, i < topn →
    ((st.cols.getD u ⟨[], []⟩).qs.getD i 0 = 0 ∧
      (st.cols.getD u ⟨[], []⟩).ids.getD i default = default) ∨
    ((st.cols.getD u ⟨[], []⟩).ids.getD i default < hist.length ∧
      fetchD hist u ((st.cols.getD u ⟨[], []⟩).ids.getD i default)
        = (st.cols.getD u ⟨[], []⟩).qs.getD i 0))

lemma denseInv_init (topn units : ℕ) : DenseInv topn units [] (denseInit topn units) := by
  refine ⟨rfl, by simp [denseInit], ?_, ?_⟩
  · intro col hcol
    have hc := List.eq_of_mem_replicate hcol
    rw [hc]
    simp
  · intro u hu i hi
    left
    have hcol : (denseInit topn units).cols.getD u ⟨[], []⟩
        = ⟨List.replicate topn 0, List.replicate topn 0⟩ := by
      show (List.replicate units (⟨List.replicate topn 0, List.replicate topn 0⟩ :
        ColState ℕ)).getD u ⟨[], []⟩ = _
      rw [List.getD_eq_getElem _ _ (by simpa using hu), List.getElem_replicate]
    rw [hcol]
    exact ⟨getD_replicate_self _ _ _, getD_replicate_self _ _ _⟩

lemma denseInv_step (topn units : ℕ) (hist : List (List ℚ)) (st : DenseState)
    (batch : List (List ℚ)) (hinv : DenseInv topn units hist st) :
    DenseInv topn units (hist ++ batch) (denseStep topn st batch) := by
  obtain ⟨hpos, hcols, hlens, hslots⟩ := hinv
  have hcolmem : ∀ u, u < st.cols.length → st.cols.getD u ⟨[], []⟩ ∈ st.cols := by
    intro u hu
    rw [List.getD_eq_getElem _ _ hu]
    exact List.getElem_mem _
  refine ⟨?_, ?_, ?_, ?_⟩
  · simp [denseStep, hpos]
  · simp [denseStep, hcols]
  · intro col hcol
    simp only [denseStep, List.mem_map, List.mem_range] at hcol
    obtain ⟨u, hu, rfl⟩ := hcol
    have hq : (st.cols.getD u ⟨[], []⟩).qs.length = topn := (hlens _ (hcolmem u hu)).1
    rw [updateCol_qs_length, updateCol_ids_length, hq]
    exact ⟨Nat.min_eq_left (Nat.le_add_right _ _), Nat.min_eq_left (Nat.le_add_right _ _)⟩
  · intro u hu i hi
    have hu' : u < st.cols.length := by rw [hcols]; exact hu
    rw [denseStep_col topn st batch u hu']
    have hqlen : (st.cols.getD u ⟨[], []⟩).qs.length = topn :=
      (hlens _ (hcolmem u hu')).1
    have hidlen : (st.cols.getD u ⟨[], []⟩).ids.length = topn :=
      (hlens _ (hcolmem u hu')).2
    have hclen : ((st.cols.getD u ⟨[], []⟩).qs ++ colOf batch u).length
        = topn + batch.length := by
      rw [List.length_append, hqlen, colOf, List.length_map]
    have hilen2 : i < (updateCol topn (st.cols.getD u ⟨[], []⟩) (colOf batch u)
        (counters batch.length st.streampos)).qs.length := by
      rw [updateCol_qs_length, hqlen]
      have : min topn (topn + (colOf batch u).length) = topn :=
        Nat.min_eq_left (Nat.le_add_right _ _)
      rw [this]
      exact hi
    obtain ⟨k, hk, hq, hid⟩ := updateCol_slot topn (st.cols.getD u ⟨[], []⟩)
      (colOf batch u) (counters batch.length st.streampos) i hilen2
    rw [hq, hid]
    rw [hclen] at hk
    by_cases hkt : k < topn
    · rw [List.getD_append _ _ _ _ (by rw [hqlen]; exact hkt),
        List.getD_append _ _ _ _ (by rw [hidlen]; exact hkt)]
      rcases hslots u hu k hkt with ⟨hq0, hi0⟩ | ⟨hlt, hfetch⟩
      · exact Or.inl ⟨hq0, hi0⟩
      · refine Or.inr ⟨?_, ?_⟩
        · rw [List.length_append]
          exact hlt.trans_le (Nat.le_add_right _ _)
        · rw [fetchD, List.getD_append _ _ _ _ hlt]
          exact hfetch
    · have hkt' : topn ≤ k := Nat.le_of_not_lt hkt
      have hjb : k - topn < batch.length := by omega
      rw [List.getD_append_right _ _ _ _ (by rw [hqlen]; exact hkt'),
        List.getD_append_right _ _ _ _ (by rw [hidlen]; exact hkt'), hqlen, hidlen]
      have hcand : (colOf batch u).getD (k - topn) 0
          = (batch.getD (k - topn) []).getD u 0 := by
        rw [colOf, List.getD_eq_getElem _ _ (by simpa using hjb), List.getElem_map,
          List.getD_eq_getElem _ _ hjb]
      have hcnt : (counters batch.length st.streampos).getD (k - topn) default
          = (k - topn) + st.streampos := by
        rw [counters]
        exact getD_map_range _ _ _ _ hjb
      rw [hcand, hcnt, hpos]
      refine Or.inr ⟨?_, ?_⟩
      · rw [List.length_append]
        omega
      · rw [fetchD, List.getD_append_right _ _ _ _ (Nat.le_add_left _ _),
          Nat.add_sub_cancel]

lemma denseInv_fold (topn units : ℕ) : ∀ (bs : List (List (List ℚ)))
    (st : DenseState) (hist : List (List ℚ)), DenseInv topn units hist st →
    DenseInv topn units (hist ++ bs.flatten) (bs.foldl (denseStep topn) st)
  | [], st, hist, h => by simpa using h
  | b :: rest, st, hist, h => by
      have h2 := denseInv_fold topn units rest (denseStep topn st b) (hist ++ b)
        (denseInv_step topn units hist st b h)
      simpa [List.append_assoc] using h2

lemma denseInv_run (topn units : ℕ) (batches : List (List (List ℚ))) :
    DenseInv topn units batches.flatten (runDense topn units batches) := by
  have h := denseInv_fold topn units batches (denseInit topn units) []
    (denseInv_init topn units)
  simpa [runDense] using h

/-- Well-formedness of a spatial batch stream against the declared feature-map
width `w` fixed at record creation: every row of every example's feature maps has
length `w` (the (h, w) layout the source assumes when decomposing the flat argmax
by divmod with `dims[2]`). -/
def SpatWF (w : ℕ) (batches : List (List (List (List (List ℚ))))) : Prop :=
  ∀ batch ∈ batches, ∀ ex ∈ batch, ∀ fm ∈ ex, ∀ row ∈ fm, row.length = w

/-- Invariant tying a spatial record state to the stream `hist` of all examples
seen so far; coordinates are (example, row, col) triples, sentinel `default` =
(0, 0, 0). -/
def SpatInv (topn units : ℕ) (hist : List (List (List (List ℚ)))) (st : SpatState) :
    Prop :=
  st.streampos = hist.length ∧
  st.cols.length = units ∧
  (∀ col ∈ st.cols, col.qs.length = topn ∧ col.ids.length = topn) ∧
  (∀ u, u < units → ∀ i, i < topn →
    ((st.cols.getD u ⟨[], []⟩).qs.getD i 0 = 0 ∧
      (st.cols.getD u ⟨[], []⟩).ids.getD i default = default) ∨
    (((st.cols.getD u ⟨[], []⟩).ids.getD i default).1 < hist.length ∧
      fetchS hist u ((st.cols.getD u ⟨[], []⟩).ids.getD i default)
        = (st.cols.getD u ⟨[], []⟩).qs.getD i 0))

lemma spatInv_init (topn units : ℕ) : SpatInv topn units [] (spatInit topn units) := by
  refine ⟨rfl, by simp [spatInit], ?_, ?_⟩
  · intro col hcol
    have hc := List.eq_of_mem_replicate hcol
    rw [hc]
    simp
  · intro u hu i hi
    left
    have hcol : (spatInit topn units).cols.getD u ⟨[], []⟩
        = ⟨List.replicate topn 0, List.replicate topn (0, 0, 0)⟩ := by
      show (List.replicate units (⟨List.replicate topn 0,
        List.replicate topn (0, 0, 0)⟩ : ColState (ℕ × ℕ × ℕ))).getD u ⟨[], []⟩ = _
      rw [List.getD_eq_getElem _ _ (by simpa using hu), List.getElem_replicate]
    rw [hcol]
    exact ⟨getD_replicate_self _ _ _, getD_replicate_self _ _ _⟩

lemma spatInv_step (topn units w : ℕ) (hist : List (List (List (List ℚ))))
    (st : SpatState) (batch : List (List (List (List ℚ))))
    (hwb : ∀ ex ∈ batch, ∀ fm ∈ ex, ∀ row ∈ fm, row.length = w)
    (hinv : SpatInv topn units hist st) :
    SpatInv topn units (hist ++ batch) (spatialStep topn w st batch) := by
  obtain ⟨hpos, hcols, hlens, hslots⟩ := hinv
  have hcolmem : ∀ u, u < st.cols.length → st.cols.getD u ⟨[], []⟩ ∈ st.cols := by
    intro u hu
    rw [List.getD_eq_getElem _ _ hu]
    exact List.getElem_mem _
  refine ⟨?_, ?_, ?_, ?_⟩
  · simp [spatialStep, hpos]
  · simp [spatialStep, hcols]
  · intro col hcol
    simp only [spatialStep, List.mem_map, List.mem_range] at hcol
    obtain ⟨u, hu, rfl⟩ := hcol
    have hq : (st.cols.getD u ⟨[], []⟩).qs.length = topn := (hlens _ (hcolmem u hu)).1
    rw [updateCol_qs_length, updateCol_ids_length, hq]
    exact ⟨Nat.min_eq_left (Nat.le_add_right _ _), Nat.min_eq_left (Nat.le_add_right _ _)⟩
  · intro u hu i hi
    have hu' : u < st.cols.length := by rw [hcols]; exact hu
    rw [spatialStep_col topn w st batch u hu']
    have hqlen : (st.cols.getD u ⟨[], []⟩).qs.length = topn :=
      (hlens _ (hcolmem u hu')).1
    have hidlen : (st.cols.getD u ⟨[], []⟩).ids.length = topn :=
      (hlens _ (hcolmem u hu')).2
    have hclen : ((st.cols.getD u ⟨[], []⟩).qs
        ++ batch.map fun ex => spatQ ex u).length = topn + batch.length := by
      rw [List.length_append, hqlen, List.length_map]
    have hilen2 : i < (updateCol topn (st.cols.getD u ⟨[], []⟩)
        (batch.map fun ex => spatQ ex u)
        ((List.range batch.length).map fun j =>
          (j + st.streampos, spatLoc w (batch.getD j []) u))).qs.length := by
      rw [updateCol_qs_length, hqlen]
      have : min topn (topn + (batch.map fun ex => spatQ ex u).length) = topn :=
        Nat.min_eq_left (Nat.le_add_right _ _)
      rw [this]
      exact hi
    obtain ⟨k, hk, hq, hid⟩ := updateCol_slot topn (st.cols.getD u ⟨[], []⟩)
      (batch.map fun ex => spatQ ex u)
      ((List.range batch.length).map fun j =>
        (j + st.streampos, spatLoc w (batch.getD j []) u)) i hilen2
    rw [hq, hid]
    rw [hclen] at hk
    by_cases hkt : k < topn
    · rw [List.getD_append _ _ _ _ (by rw [hqlen]; exact hkt),
        List.getD_append _ _ _ _ (by rw [hidlen]; exact hkt)]
      rcases hslots u hu k hkt with ⟨hq0, hi0⟩ | ⟨hlt, hfetch⟩
      · exact Or.inl ⟨hq0, hi0⟩
      · refine Or.inr ⟨?_, ?_⟩
        · rw [List.length_append]
          exact hlt.trans_le (Nat.le_add_right _ _)
        · rw [fetchS, List.getD_append _ _ _ _ hlt]
          exact hfetch
    · have hkt' : topn ≤ k := Nat.le_of_not_lt hkt
      have hjb : k - topn < batch.length := by omega
      rw [List.getD_append_right _ _ _ _ (by rw [hqlen]; exact hkt'),
        List.getD_append_right _ _ _ _ (by rw [hidlen]; exact hkt'), hqlen, hidlen]
      have hcand : ((batch.map fun ex => spatQ ex u).getD (k - topn) 0)
          = spatQ (batch.getD (k - topn) []) u := by
        rw [List.getD_eq_getElem _ _ (by simpa using hjb), List.getElem_map,
          List.getD_eq_getElem _ _ hjb]
      have hcnt : (((List.range batch.length).map fun j =>
            (j + st.streampos, spatLoc w (batch.getD j []) u)).getD (k - topn) default)
          = ((k - topn) + st.streampos, spatLoc w (batch.getD (k - topn) []) u) :=
        getD_map_range _ _ _ _ hjb
      rw [hcand, hcnt, hpos]
      refine Or.inr ⟨?_, ?_⟩
      · rw [List.length_append]
        simp only []
        omega
      · have hexmem : batch.getD (k - topn) [] ∈ batch := by
          rw [List.getD_eq_getElem _ _ hjb]
          exact List.getElem_mem _
        rw [fetchS]
        show ((fmOf ((hist ++ batch).getD ((k - topn) + hist.length) []) u).getD
            (spatLoc w (batch.getD (k - topn) []) u).1 []).getD
            (spatLoc w (batch.getD (k - topn) []) u).2 0 = _
        rw [List.getD_append_right _ _ _ _ (Nat.le_add_left _ _),
          Nat.add_sub_cancel]
        exact spatQ_fetch w u (batch.getD (k - topn) []) (hwb _ hexmem)

lemma spatInv_fold (topn units w : ℕ) : ∀ (bs : List (List (List (List (List ℚ)))))
    (st : SpatState) (hist : List (List (List (List ℚ)))), SpatWF w bs →
    SpatInv topn units hist st →
    SpatInv topn units (hist ++ bs.flatten) (bs.foldl (spatialStep topn w) st)
  | [], st, hist, _, h => by simpa using h
  | b :: rest, st, hist, hwf, h => by
      have hwb : ∀ ex ∈ b, ∀ fm ∈ ex, ∀ row ∈ fm, row.length = w :=
        hwf b (by simp)
      have hwrest : SpatWF w rest := fun batch hb => hwf batch (by simp [hb])
      have h2 := spatInv_fold topn units w rest (spatialStep topn w st b) (hist ++ b)
        hwrest (spatInv_step topn units w hist st b hwb h)
      simpa [List.append_assoc] using h2

lemma spatInv_run (topn units w : ℕ) (batches : List (List (List (List (List ℚ)))))
    (hwf : SpatWF w batches) :
    SpatInv topn units batches.flatten (runSpat topn units w batches) := by
  have h := spatInv_fold topn units w batches (spatInit topn units) [] hwf
    (spatInv_init topn units)
  simpa [runSpat] using h

/-! Coordinate bounds: recorded example coordinates never exceed the stream
position. -/

/-- Every example coordinate recorded in a dense record is either the zero
sentinel or strictly below the current stream position. -/
def denseCoord (st : DenseState) : Prop :=
  ∀ col ∈ st.cols, ∀ c ∈ col.ids, c = default ∨ c < st.streampos

lemma denseCoord_init (topn units : ℕ) : denseCoord (denseInit topn units) := by
  intro col hcol c hc
  rw [List.eq_of_mem_replicate hcol] at hc
  exact Or.inl (List.eq_of_mem_replicate hc)

lemma denseCoord_step (topn : ℕ) (st : DenseState) (batch : List (List ℚ))
    (h : denseCoord st) : denseCoord (denseStep topn st batch) := by
  intro col hcol c hc
  simp only [denseStep, List.mem_map, List.mem_range] at hcol
  obtain ⟨u, hu, rfl⟩ := hcol
  rcases updateCol_ids_mem _ _ _ _ _ hc with hdef | hold | hnew
  · exact Or.inl hdef
  · rcases h _ (by rw [List.getD_eq_getElem _ _ hu]; exact List.getElem_mem _) _ hold
      with h0 | hlt
    · exact Or.inl h0
    · right
      show c < st.streampos + batch.length
      omega
  · right
    rw [counters, List.mem_map] at hnew
    obtain ⟨j, hj, rfl⟩ := hnew
    rw [List.mem_range] at hj
    show j + st.streampos < st.streampos + batch.length
    omega

lemma denseCoord_fold (topn : ℕ) : ∀ (bs : List (List (List ℚ))) (st : DenseState),
    denseCoord st → denseCoord (bs.foldl (denseStep topn) st)
  | [], _, h => h
  | b :: rest, st, h => denseCoord_fold topn rest _ (denseCoord_step topn st b h)

/-- Spatial version: the example component of every recorded coordinate triple is
either that of the (0, 0, 0) sentinel or strictly below the stream position. -/
def spatCoord (st : SpatState) : Prop :=
  ∀ col ∈ st.cols, ∀ c ∈ col.ids, c.1 = 0 ∨ c.1 < st.streampos

lemma spatCoord_init (topn units : ℕ) : spatCoord (spatInit topn units) := by
  intro col hcol c hc
  rw [List.eq_of_mem_replicate hcol] at hc
  rw [List.eq_of_mem_replicate hc]
  exact Or.inl rfl

lemma spatCoord_step (topn w : ℕ) (st : SpatState)
    (batch : List (List (List (List ℚ)))) (h : spatCoord st) :
    spatCoord (spatialStep topn w st batch) := by
  intro col hcol c hc
  simp only [spatialStep, List.mem_map, List.mem_range] at hcol
  obtain ⟨u, hu, rfl⟩ := hcol
  rcases updateCol_ids_mem _ _ _ _ _ hc with hdef | hold | hnew
  · rw [hdef]
    exact Or.inl rfl
  · rcases h _ (by rw [List.getD_eq_getElem _ _ hu]; exact List.getElem_mem _) _ hold
      with h0 | hlt
    · exact Or.inl h0
    · right
      show c.1 < st.streampos + batch.length
      omega
  · right
    rw [List.mem_map] at hnew
    obtain ⟨j, hj, rfl⟩ := hnew
    rw [List.mem_range] at hj
    show j + st.streampos < st.streampos + batch.length
    omega

lemma spatCoord_fold (topn w : ℕ) : ∀ (bs : List (List (List (List (List ℚ)))))
    (st : SpatState), spatCoord st → spatCoord (bs.foldl (spatialStep topn w) st)
  | [], _, h => h
  | b :: rest, st, h => spatCoord_fold topn w rest _ (spatCoord_step topn w st b h)

/-- The spatial stream position accumulates batch sizes, with no well-formedness
assumption on the batches. -/
lemma spatStreampos_fold (topn w : ℕ) : ∀ (bs : List (List (List (List (List ℚ)))))
    (st : SpatState),
    (bs.foldl (spatialStep topn w) st).streampos = st.streampos + totalExamples bs
  | [], st => by simp [totalExamples]
  | b :: rest, st => by
      rw [List.foldl_cons, spatStreampos_fold topn w rest]
      show st.streampos + b.length + totalExamples rest
        = st.streampos + totalExamples (b :: rest)
      rw [totalExamples, totalExamples, List.map_cons, List.sum_cons]
      omega

/-- C1 counterexample: after one batch whose single activation is negative, slot
(0, 0) retains the zero sentinel with recorded coordinate 0, but re-fetching the
activation at coordinate 0 from the batch data seen so far yields -1, not the
retained quantity 0 — so the claim as stated fails at this input. -/
theorem maxact_index_quantity_counterexample :
    fetchD ([[[-1]]] : List (List (List ℚ))).flatten 0
        (((runDense 1 1 [[[-1]]]).cols.getD 0 ⟨[], []⟩).ids.getD 0 default)
      ≠ ((runDense 1 1 [[[-1]]]).cols.getD 0 ⟨[], []⟩).qs.getD 0 0 := by
  decide

/-- C1 amended: after any number of streaming top-N updates from the
zero-initialized record, every retained slot (i, u) either reproduces its recorded
coordinate's activation from the batch data seen so far — for dense outputs the
recorded example's activation at unit u, for spatial outputs the value at the
recorded (row, col) of the recorded example's unit-u feature map — or is an
unretired zero-initial sentinel (quantity 0 at the zero coordinate), the
documented initial-state artifact. -/
theorem maxact_index_quantity_correspondence (topn units w : ℕ) :
    (∀ (batches : List (List (List ℚ))) (u i : ℕ), u < units → i < topn →
      ((((runDense topn units batches).cols.getD u ⟨[], []⟩).qs.getD i 0 = 0 ∧
        ((runDense topn units batches).cols.getD u ⟨[], []⟩).ids.getD i default
          = default) ∨
      fetchD batches.flatten u
          (((runDense topn units batches).cols.getD u ⟨[], []⟩).ids.getD i default)
        = ((runDense topn units batches).cols.getD u ⟨[], []⟩).qs.getD i 0)) ∧
    (∀ (batches : List (List (List (List (List ℚ))))), SpatWF w batches →
      ∀ (u i : ℕ), u < units → i < topn →
      ((((runSpat topn units w batches).cols.getD u ⟨[], []⟩).qs.getD i 0 = 0 ∧
        ((runSpat topn units w batches).cols.getD u ⟨[], []⟩).ids.getD i default
          = default) ∨
      fetchS batches.flatten u
          (((runSpat topn units w batches).cols.getD u ⟨[], []⟩).ids.getD i default)
        = ((runSpat topn units w batches).cols.getD u ⟨[], []⟩).qs.getD i 0)) := by
  constructor
  · intro batches u i hu hi
    rcases (denseInv_run topn units batches).2.2.2 u hu i hi with ⟨h1, h2⟩ | ⟨-, h⟩
    · exact Or.inl ⟨h1, h2⟩
    · exact Or.inr h
  · intro batches hwf u i hu hi
    rcases (spatInv_run topn units w batches hwf).2.2.2 u hu i hi with ⟨h1, h2⟩ | ⟨-, h⟩
    · exact Or.inl ⟨h1, h2⟩
    · exact Or.inr h

/-- C1 amended, closed instance: one positive dense batch, the retained slot
re-fetches to its recorded activation. -/
theorem maxact_index_quantity_correspondence_witness :
    (0 : ℕ) < 1 ∧
      (((((runDense 1 1 [[[5]]]).cols.getD 0 ⟨[], []⟩).qs.getD 0 0 = 0 ∧
        ((runDense 1 1 [[[5]]]).cols.getD 0 ⟨[], []⟩).ids.getD 0 default = default) ∨
      fetchD ([[[5]]] : List (List (List ℚ))).flatten 0
          (((runDense 1 1 [[[5]]]).cols.getD 0 ⟨[], []⟩).ids.getD 0 default)
        = ((runDense 1 1 [[[5]]]).cols.getD 0 ⟨[], []⟩).qs.getD 0 0)) :=
  ⟨by decide, (maxact_index_quantity_correspondence 1 1 0).1 [[[5]]] 0 0
    (by decide) (by decide)⟩

/-- C6 counterexample: with k = 0 batches processed, the freshly constructed
record already holds coordinate 0 in its indices buffer, while the claimed range
[0, b_1 + ... + b_k) = [0, 0) is empty — the range clause of the claim fails as
stated. -/
theorem maxact_stream_position_counterexample :
    ¬ (∀ c ∈ ((runDense 1 1 []).cols.getD 0 ⟨[], []⟩).ids,
        c < totalExamples ([] : List (List (List ℚ)))) := by
  decide

/-- C6 amended: from a freshly constructed controller, after processing any k
batches the stream position equals b_1 + ... + b_k, in both variants; and once at
least one example has been processed, every example coordinate recorded in any
indices buffer lies in [0, b_1 + ... + b_k).  (That each non-sentinel coordinate
is the batch-start stream position plus the producing example's within-batch
offset is the correspondence invariant, proved with
the index-quantity theorem's invariant.) -/
theorem maxact_stream_position_accumulation (topn units w : ℕ) :
    (∀ batches : List (List (List ℚ)),
      (runDense topn units batches).streampos = totalExamples batches ∧
      (1 ≤ totalExamples batches →
        ∀ col ∈ (runDense topn units batches).cols, ∀ c ∈ col.ids,
          c < totalExamples batches)) ∧
    (∀ batches : List (List (List (List (List ℚ)))),
      (runSpat topn units w batches).streampos = totalExamples batches ∧
      (1 ≤ totalExamples batches →
        ∀ col ∈ (runSpat topn units w batches).cols, ∀ c ∈ col.ids,
          c.1 < totalExamples batches)) := by
  constructor
  · intro batches
    have hpos : (runDense topn units batches).streampos = totalExamples batches := by
      rw [(denseInv_run topn units batches).1, List.length_flatten]
      rfl
    refine ⟨hpos, ?_⟩
    intro h1 col hcol c hc
    have hcoord : denseCoord (runDense topn units batches) :=
      denseCoord_fold topn batches (denseInit topn units) (denseCoord_init topn units)
    rcases hcoord col hcol c hc with h0 | hlt
    · have hc0 : c = 0 := h0
      omega
    · rw [← hpos]
      exact hlt
  · intro batches
    have hpos : (runSpat topn units w batches).streampos = totalExamples batches := by
      rw [runSpat, spatStreampos_fold topn w batches (spatInit topn units)]
      show 0 + totalExamples batches = totalExamples batches
      omega
    refine ⟨hpos, ?_⟩
    intro h1 col hcol c hc
    have hcoord : spatCoord (runSpat topn units w batches) :=
      spatCoord_fold topn w batches (spatInit topn units) (spatCoord_init topn units)
    rcases hcoord col hcol c hc with h0 | hlt
    · omega
    · rw [← hpos]
      exact hlt

/-- C6 amended, closed instance: two singleton batches, stream position 2 and
slot-0 coordinate below 2. -/
theorem maxact_stream_position_accumulation_witness :
    (runDense 1 1 [[[5]], [[7]]]).streampos = 2 ∧
      ((runDense 1 1 [[[5]], [[7]]]).cols.getD 0 ⟨[], []⟩).ids.getD 0 default < 2 := by
  have h := (maxact_stream_position_accumulation 1 1 0).1 [[[5]], [[7]]]
  refine ⟨h.1.trans (by decide), ?_⟩
  have h2 := h.2 (by decide) ((runDense 1 1 [[[5]], [[7]]]).cols.getD 0 ⟨[], []⟩)
    (by decide) (((runDense 1 1 [[[5]], [[7]]]).cols.getD 0 ⟨[], []⟩).ids.getD 0 default)
    (by decide)
  exact lt_of_lt_of_le h2 (by decide)
